import Mathlib

/-!
Verification of the gotypist-stats reporting pipeline.

This file gives a shallow embedding of the final version of the code
(the `gotypist_stats` package: `helper.py`, `report.py`, `__main__.py`)
and proves properties of the embedded definitions.

Modelling conventions:
* Python numbers are embedded as `ℤ`/`ℕ`/`ℚ` with the exact arithmetic the
  code performs; `float` arithmetic on the values appearing here is exact
  in `ℚ` (all values are ratios of machine integers of modest size).
* Python's `sorted` is a stable sort; a stable sort with respect to a total
  preorder has a unique result, which we realise with `List.insertionSort`
  (structural recursion, so the kernel can evaluate it).
* Fallible code (raising exceptions) is embedded in `Option`.
* `dict` iteration order is insertion order (Python ≥ 3.7), embedded by
  `dictKeys`.
-/

namespace Gotypist

/-- Exact division on `ℚ`.  It is written with `Rat.divInt` so that the
kernel can evaluate it (the `Div ℚ` instance does not reduce there);
`pyDiv_eq_div` proves it is the ordinary division. -/
def pyDiv (a b : ℚ) : ℚ := Rat.divInt (a.num * b.den) (a.den * b.num)

theorem pyDiv_eq_div (a b : ℚ) : pyDiv a b = a / b := by
  rcases eq_or_ne b 0 with hb | hb
  · subst hb; simp [pyDiv]
  · rw [pyDiv, Rat.divInt_eq_div]
    conv_rhs => rw [← Rat.num_div_den a, ← Rat.num_div_den b]
    have ha' : ((a.den : ℚ)) ≠ 0 := by exact_mod_cast a.den_nz
    have hb' : ((b.den : ℚ)) ≠ 0 := by exact_mod_cast b.den_nz
    have hbn : ((b.num : ℚ)) ≠ 0 := by exact_mod_cast Rat.num_ne_zero.mpr hb
    push_cast
    field_simp

/-- Python `int(x)` on a float/rational: truncation toward zero. -/
def pyInt (q : ℚ) : ℤ := if 0 ≤ q then ⌊q⌋ else ⌈q⌉

/-- Python rounding used by format specifiers such as `:.0f`:
round half to even (written without `Div ℚ` so the kernel can evaluate
it). -/
def pyRound (q : ℚ) : ℤ :=
  if 2 * (q - ⌊q⌋) = 1 then (if Int.emod ⌊q⌋ 2 = 0 then ⌊q⌋ else ⌊q⌋ + 1)
  else if 2 * (q - ⌊q⌋) < 1 then ⌊q⌋ else ⌊q⌋ + 1

/-- Keys of a Python `dict` built by repeated insertion from `l`:
the distinct elements of `l` in first-occurrence order. -/
def dictKeys {α : Type} [DecidableEq α] (l : List α) : List α :=
  l.foldl (fun ks x => if x ∈ ks then ks else ks ++ [x]) []

/-- Embedding of `statistics.median` (Python standard library): sort the
data; for odd length take the middle element, for even length the mean of
the two middle ones.  `median([])` raises `StatisticsError`, embedded as
`none`. -/
def median (xs : List ℚ) : Option ℚ :=
  let s := xs.insertionSort (· ≤ ·)
  let n := s.length
  if n = 0 then none
  else if n % 2 = 1 then some (s.getD (n / 2) 0)
  else some (pyDiv (s.getD (n / 2 - 1) 0 + s.getD (n / 2) 0) 2)

/-- The loop body of the exclusive method of `helper.quantiles_38` for a
sorted list `d`: `j = clamp(i*(ld+1)//n, 1, ld-1)`,
`delta = i*(ld+1) - j*n`, interpolate
`(d[j-1]*(n-delta) + d[j]*delta)/n`. -/
def quantileInterp (d : List ℚ) (n i : ℕ) : ℚ :=
  let ld := d.length
  let m := ld + 1
  let j0 := i * m / n
  let j := if j0 < 1 then 1 else if j0 > ld - 1 then ld - 1 else j0
  let delta : ℤ := (i : ℤ) * m - (j : ℤ) * n
  pyDiv (d.getD (j - 1) 0 * ((n : ℚ) - delta) + d.getD j 0 * delta) n

/-- Embedding of `helper.quantiles_38` (exclusive method, the only method
the package calls).  Raising `StatisticsError` is embedded as `none`.
`data` is sorted first and `quantileInterp` is applied for each `i` in
`1..n-1`. -/
def quantiles_38 (data : List ℚ) (n : ℕ) : Option (List ℚ) :=
  if n < 1 then none
  else if (data.insertionSort (· ≤ ·)).length < 2 then none
  else some ((List.range' 1 (n - 1)).map
    (quantileInterp (data.insertionSort (· ≤ ·)) n))

/-- The `report.Mode` enumeration.  Python's
`Enum("Mode", "FAST SLOW NORMAL")` numbers its members starting at 1. -/
inductive Mode where
  | FAST
  | SLOW
  | NORMAL
deriving DecidableEq

/-- The stored value of a `Mode` member (`Mode.FAST.value == 1`, …). -/
def Mode.value : Mode → ℤ
  | .FAST => 1
  | .SLOW => 2
  | .NORMAL => 3

/-- The `Mode(v)` enum call: look a member up by value; an unknown value
raises `ValueError`, embedded as `none`. -/
def Mode.fromValue (v : ℤ) : Option Mode :=
  if v = 1 then some .FAST
  else if v = 2 then some .SLOW
  else if v = 3 then some .NORMAL
  else none

/-- `Mode.name.lower()` as used by the typo-record report. -/
def Mode.lowerName : Mode → String
  | .FAST => "fast"
  | .SLOW => "slow"
  | .NORMAL => "normal"

/-- The `report.Typo` named tuple; identity is structural. -/
structure Typo where
  expected : String
  actual : String
deriving DecidableEq

/-- A timezone-aware `datetime.datetime` as stored in a record: wall-clock
calendar fields plus a UTC offset in minutes. -/
structure PyDateTime where
  year : ℤ
  month : ℤ
  day : ℤ
  hour : ℤ
  minute : ℤ
  second : ℤ
  usec : ℤ
  offMin : ℤ
deriving DecidableEq

/-- `datetime.date.toordinal`: day number in the proleptic Gregorian
calendar with `0001-01-01 ↦ 1` (the standard days-from-civil algorithm;
checked against `toOrdinal 1 1 1 = 1` and `toOrdinal 2021 3 1 = 737850`,
a Monday). -/
def toOrdinal (y m d : ℤ) : ℤ :=
  let yy := if m ≤ 2 then y - 1 else y
  let era := Int.fdiv yy 400
  let yoe := yy - era * 400
  let mp := if 2 < m then m - 3 else m + 9
  let doy := Int.fdiv (153 * mp + 2) 5 + d - 1
  let doe := yoe * 365 + Int.fdiv yoe 4 - Int.fdiv yoe 100 + doy
  era * 146097 + doe - 305

/-- `datetime.date.weekday`: 0 for Monday … 6 for Sunday, from the
ordinal (`0001-01-01` was a Monday). -/
def ordWeekday (o : ℤ) : ℤ := Int.emod (o - 1) 7

/-- `dt.date()` of an aware datetime: the ordinal of its wall-clock date. -/
def PyDateTime.dateOrd (dt : PyDateTime) : ℤ := toOrdinal dt.year dt.month dt.day

/-- The instant a datetime denotes, in microseconds since the epoch
`0001-01-01T00:00:00+00:00`; differences of aware datetimes are
differences of this quantity. -/
def PyDateTime.toUs (dt : PyDateTime) : ℤ :=
  ((dt.dateOrd - 1) * 86400 + dt.hour * 3600 + dt.minute * 60 + dt.second) * 1000000
    + dt.usec - dt.offMin * 60000000

/-- The `report.Stat` named tuple: one parsed session record. -/
structure Stat where
  text : String
  started_at : PyDateTime
  finished_at : PyDateTime
  errors : ℕ
  typos : List Typo
  mode : Mode
  seconds : ℚ
  cps : ℚ
  wpm : ℚ
  version : ℤ
deriving DecidableEq

/-- The `report.Report` named tuple. -/
structure Report where
  title : String
  content : String
deriving DecidableEq

/-- Black-box model of the external `tabulate` collaborator (spec treats
table pretty-printing as out of scope): cells joined with `" | "`, rows
with newlines, after an optional header row; grid borders, column
alignment and the `showindex` column are not modelled. -/
def tabulate (headers : List String) (rows : List (List String)) : String :=
  String.intercalate "\n"
    ((if headers.isEmpty then [] else [String.intercalate " | " headers])
      ++ rows.map (String.intercalate " | "))

/-- Decimal representation of a float of integral value or with a
terminating micro-resolution expansion, as Python's `repr`/f-string prints
it (`90.0` ↦ `"90.0"`, `90.5` ↦ `"90.5"`).  All floats the code prints
this way arise from microsecond-resolution `timedelta.total_seconds()`. -/
def pyFloatRepr (q : ℚ) : String :=
  let m := Int.tdiv (q.num * 1000000) q.den
  let sign := if m < 0 then "-" else ""
  let a := m.natAbs
  let ip := a / 1000000
  let fp := a % 1000000
  let fracDigits :=
    (List.range 6).reverse.map (fun i => Char.ofNat (48 + fp / 10 ^ i % 10))
  let trimmed := (fracDigits.reverse.dropWhile (· == '0')).reverse
  sign ++ toString ip ++ "." ++ (if trimmed.isEmpty then "0" else String.mk trimmed)

/-- Python's `{x:.0f}` format: decimal rendering of the half-to-even
rounding of `x`. -/
def fmtF0 (q : ℚ) : String := toString (pyRound q)

/-- Python float `%` with a positive right operand. -/
def pyMod (a b : ℚ) : ℚ := a - b * ⌊pyDiv a b⌋

/-- Embedding of `report._human_duration`.  The argument is the
`timedelta` in microseconds; `total_seconds()` divides by `10^6`. -/
def _human_duration (deltaUs : ℤ) : String :=
  let secs : ℚ := pyDiv (deltaUs : ℚ) 1000000
  if secs ≤ 120 then pyFloatRepr secs ++ " seconds"
  else if secs ≤ 3600 * 2 then
    fmtF0 (⌊pyDiv secs 60⌋ : ℤ) ++ " minutes " ++ fmtF0 (pyMod secs 60) ++ "s"
  else
    fmtF0 (⌊pyDiv secs 3600⌋ : ℤ) ++ " hours " ++ fmtF0 (⌊pyDiv (pyMod secs 3600) 60⌋ : ℤ) ++ "min"

/-- One cell of `report._box_plot`: the first matching condition, in the
order the code lists them, supplies the character; no match appends
nothing. -/
def boxPlotChar (start q25 med q75 endP i : ℤ) : String :=
  if i < start then " "
  else if i = med then "▣"
  else if i = start then "├"
  else if i = endP then "┤"
  else if q25 ≤ i ∧ i < med then "□"
  else if med < i ∧ i ≤ q75 then "□"
  else if start < i ∧ i < q25 then "─"
  else if q75 < i ∧ i < endP then "─"
  else ""

/-- Embedding of `report._box_plot`: cells for `i` in `range(end+1)`. -/
def _box_plot (start q25 med q75 endP : ℤ) : String :=
  String.join ((List.range (endP + 1).toNat).map fun i =>
    boxPlotChar start q25 med q75 endP (i : ℤ))

/-- `calendar.day_abbr` as indexed by the hitmap loop. -/
def day_abbr : List String := ["Mon", "Tue", "Wed", "Thu", "Fri", "Sat", "Sun"]

/-- The hitmap day-count dictionary as a function: number of sessions whose
start date is `d`, counting only sessions whose start date is not before
`begin` (the code's `continue` filter). -/
def hitmapCount (beginD : ℤ) (stats : List Stat) (d : ℤ) : ℕ :=
  (stats.filter fun s => beginD ≤ s.started_at.dateOrd ∧ s.started_at.dateOrd = d).length

/-- The days that received at least one session (the keys of the code's
`defaultdict`), in insertion order. -/
def practicedDays (beginD : ℤ) (stats : List Stat) : List ℤ :=
  dictKeys ((stats.filter fun s => beginD ≤ s.started_at.dateOrd).map fun s =>
    s.started_at.dateOrd)

/-- The `med` the hitmap code computes: `median(hitmap.values())`, i.e. the
median of the session counts of the practiced days only. -/
def hitmapMed (today : ℤ) (stats : List Stat) : Option ℚ :=
  median ((practicedDays (today - 182) stats).map fun d =>
    (hitmapCount (today - 182) stats d : ℚ))

/-- The `char` lambda of the hitmap code: heavy at or above the threshold,
light for a positive count below it, empty otherwise. -/
def hitmapChar (treshold : ℚ) (v : ℕ) : String :=
  if treshold ≤ (v : ℚ) then "▓▓" else if 0 < v then "▒▒" else "░░"

/-- Number of week columns of the hitmap grid. -/
def hitmapWeeks (today : ℤ) : ℤ :=
  let beginD := today - 182
  let firstMonday := beginD - ordWeekday beginD
  let lastMonday := today - ordWeekday today
  1 + Int.fdiv (lastMonday - firstMonday) 7

/-- Embedding of `report.hitmap`.  `median` of an empty collection raises
`StatisticsError`, so the result is an `Option`. -/
def hitmap (today : ℤ) (stats : List Stat) : Option Report :=
  let beginD := today - 182
  let firstMonday := beginD - ordWeekday beginD
  (hitmapMed today stats).map fun med =>
    let sessionCount := fun (week day : ℕ) =>
      hitmapCount beginD stats (firstMonday + (7 * week + day : ℕ))
    let lines := (List.range 7).map fun weekday =>
      day_abbr.getD weekday "" ++ " " ++
        String.join ((List.range (hitmapWeeks today).toNat).map fun week =>
          hitmapChar med (sessionCount week weekday))
    ⟨"6 months hitmap", String.intercalate "\n" lines⟩

/-- `finished_at - started_at` of one record, in microseconds. -/
def sessionUs (s : Stat) : ℤ := s.finished_at.toUs - s.started_at.toUs

/-- The `reduce` in `report.training_time`: total duration in microseconds,
starting from the zero `timedelta`. -/
def trainingDurationUs (stats : List Stat) : ℤ :=
  (stats.map sessionUs).foldl (· + ·) 0

/-- Embedding of `report.training_time`. -/
def training_time (stats : List Stat) : Report :=
  ⟨"Overall stats",
    tabulate [] [["Total training time:", _human_duration (trainingDurationUs stats)]]⟩

/-- The sort key order of `report.typo_record`: `sorted(key=errors,
reverse=True)` places `a` before `b` when `b.errors ≤ a.errors`. -/
def errDesc (a b : Stat) : Prop := b.errors ≤ a.errors

instance : DecidableRel errDesc := fun a b => Nat.decLe b.errors a.errors

/-- The record `sorted(stats, key=errors, reverse=True)[0]` selects.
Indexing `[0]` into an empty list raises, hence the `Option`. -/
def worseRecord (stats : List Stat) : Option Stat :=
  (stats.insertionSort errDesc).head?

/-- `strftime`'s `%b` month abbreviations (C locale). -/
def monthAbbr (m : ℤ) : String :=
  ["Jan", "Feb", "Mar", "Apr", "May", "Jun",
   "Jul", "Aug", "Sep", "Oct", "Nov", "Dec"].getD (m - 1).toNat ""

/-- Zero-padded two-digit rendering used by the `%m` directive. -/
def pad2 (n : ℤ) : String := (if n < 10 then "0" else "") ++ toString n

/-- `worse.started_at.strftime("%b %m %Y")`. -/
def strftimeBmY (dt : PyDateTime) : String :=
  monthAbbr dt.month ++ " " ++ pad2 dt.month ++ " " ++ toString dt.year

/-- Embedding of `report.typo_record`. -/
def typo_record (stats : List Stat) : Option Report :=
  (worseRecord stats).map fun worse =>
    ⟨"Biggest failure",
      tabulate []
        [["was typing", worse.text],
         ["mode", worse.mode.lowerName],
         ["failed", toString worse.errors ++ " times"],
         ["happened on", strftimeBmY worse.started_at],
         ["struggled for", _human_duration (sessionUs worse)]]⟩

/-- All typo occurrences of the records the common-typos report counts:
those of every record with `errors > 0`, in file order. -/
def qualifyingTypos (stats : List Stat) : List Typo :=
  ((stats.filter fun s => 0 < s.errors).map Stat.typos).flatten

/-- The `total` accumulator of `report.common_typos`. -/
def typoTotal (stats : List Stat) : ℕ := (qualifyingTypos stats).length

/-- The `typos` dictionary of `report.common_typos` as an association list
in key-insertion order. -/
def typoPairs (stats : List Stat) : List (Typo × ℕ) :=
  (dictKeys (qualifyingTypos stats)).map fun t => (t, (qualifyingTypos stats).count t)

/-- The sort key order of `report.common_typos`: descending count. -/
def countDesc (a b : Typo × ℕ) : Prop := b.2 ≤ a.2

instance : DecidableRel countDesc := fun a b => Nat.decLe b.2 a.2

/-- `sorted(typos.items(), key=count, reverse=True)`. -/
def sortedTypos (stats : List Stat) : List (Typo × ℕ) :=
  (typoPairs stats).insertionSort countDesc

/-- The six (at most) displayed rows, before formatting. -/
def displayedTypos (stats : List Stat) : List (Typo × ℕ) :=
  (sortedTypos stats).take 6

/-- The share `count / total` shown in the last column, as an exact
rational (the code formats it with `:.2%`). -/
def typoShare (stats : List Stat) (count : ℕ) : ℚ := pyDiv (count : ℚ) (typoTotal stats : ℚ)

/-- Python's `{x:.2%}` format: `x*100` with two decimals and a percent
sign. -/
def fmtPct (q : ℚ) : String :=
  let n := pyRound (q * 10000)
  let ip := Int.fdiv n 100
  let fp := Int.emod n 100
  toString ip ++ "." ++ (if fp < 10 then "0" else "") ++ toString fp ++ "%"

/-- Embedding of `report.common_typos`. -/
def common_typos (stats : List Stat) : Report :=
  ⟨"Most common typos",
    tabulate ["Typo", "Mistakes", "% of mistakes"]
      ((displayedTypos stats).map fun p =>
        [p.1.actual ++ " instead of " ++ p.1.expected,
         toString p.2,
         fmtPct (typoShare stats p.2)])⟩

/-- The slow-mode records the speed-progress report keeps. -/
def slowStats (stats : List Stat) : List Stat :=
  stats.filter fun s => s.mode = Mode.SLOW

/-- The grouping key `(started_at.year, started_at.month)`. -/
def monthKey (s : Stat) : ℤ × ℤ := (s.started_at.year, s.started_at.month)

/-- The `cps` dictionary of `report.cps_progress`: for each month key in
insertion order, the `cps` values of its slow-mode records in file
order. -/
def cpsGroups (stats : List Stat) : List ((ℤ × ℤ) × List ℚ) :=
  (dictKeys ((slowStats stats).map monthKey)).map fun k =>
    (k, ((slowStats stats).filter fun s => monthKey s = k).map Stat.cps)

/-- One element of the code's `plot_input` list. -/
structure PlotEntry where
  year : ℤ
  month : ℤ
  points : List ℚ
  count : ℕ
deriving DecidableEq

/-- Builds one `plot_input` entry; `min`/`max` of an empty sequence and
`quantiles_38` of fewer than two points raise, hence the `Option`. -/
def plotEntry (k : ℤ × ℤ) (cps : List ℚ) : Option PlotEntry :=
  match cps.min?, quantiles_38 cps 4, cps.max? with
  | some lo, some qs, some hi => some ⟨k.1, k.2, lo :: qs ++ [hi], cps.length⟩
  | _, _, _ => none

/-- The code's `plot_input` list comprehension. -/
def plotInput (stats : List Stat) : Option (List PlotEntry) :=
  (cpsGroups stats).mapM fun p => plotEntry p.1 p.2

/-- `max(v["points"][-1] for v in plot_input)`; `max` of an empty
generator raises, hence the `Option`. -/
def globalMax (entries : List PlotEntry) : Option ℚ :=
  (entries.map fun e => e.points.getLastD 0).max?

/-- The `screen_pos` lambda: `int(scale(0, global_max, 30, value))`, i.e.
`30 * value / abs(global_max)` truncated toward zero. -/
def screenPos (gmax v : ℚ) : ℤ := pyInt (pyDiv (30 * v) |gmax|)

/-- The five screen positions of each group's five-number summary, in
group order — the columns the box plots are drawn at.  `none` when a group
is degenerate, there is no slow-mode record, or `global_max` is zero (the
float division raises `ZeroDivisionError`). -/
def cpsPositions (stats : List Stat) : Option (List (List ℤ)) :=
  (plotInput stats).bind fun entries =>
    (globalMax entries).bind fun gmax =>
      if gmax = 0 then none
      else some (entries.map fun e => e.points.map (screenPos gmax))

/-- Python's `{x:.2}` format (two significant digits) on the magnitudes a
median cps takes; exponent notation for values outside `[0.01, 100)` is
not modelled, nor the carry at a rounding like `9.96 ↦ 10`. -/
def fmtG2 (q : ℚ) : String :=
  let a := |q|
  if a = 0 then "0.0"
  else if 10 ≤ a then toString (pyRound q)
  else if 1 ≤ a then
    let n := pyRound (q * 10)
    toString (Int.fdiv n 10) ++ "." ++ toString (Int.emod n 10)
  else
    let n := pyRound (q * 100)
    "0." ++ (if n < 10 then "0" else "") ++ toString n

/-- `datetime(year, month, 1).strftime('%b %Y')`. -/
def monthLabel (y m : ℤ) : String := monthAbbr m ++ " " ++ toString y

/-- One row of the speed-progress table. -/
def cpsRow (gmax : ℚ) (e : PlotEntry) : List String :=
  let ps := e.points.map (screenPos gmax)
  [monthLabel e.year e.month,
   fmtG2 (e.points.getD 2 0),
   _box_plot (ps.getD 0 0) (ps.getD 1 0) (ps.getD 2 0) (ps.getD 3 0) (ps.getD 4 0),
   toString e.count]

/-- Embedding of `report.cps_progress`. -/
def cps_progress (stats : List Stat) : Option Report :=
  (plotInput stats).bind fun entries =>
    (globalMax entries).bind fun gmax =>
      if gmax = 0 then none
      else
        some ⟨"Characters per second (slow mode)",
          tabulate ["Month", "Median cps", "Plot", "Sessions..."]
            (entries.map (cpsRow gmax))⟩

/-- The report list `main` builds before printing anything: the five
generators run in this order, and the first raised exception aborts the
whole run with no output. -/
def mainReports (today : ℤ) (stats : List Stat) : Option (List Report) :=
  (hitmap today stats).bind fun r1 =>
    (typo_record stats).bind fun r3 =>
      (cps_progress stats).map fun r5 =>
        [r1, training_time stats, r3, common_typos stats, r5]

/-- The character class `[\d\-T:]` of the timestamp regex in
`__main__._to_datetime` (all inputs are ASCII). -/
def inTsClass (c : Char) : Bool := c.isDigit || c == '-' || c == 'T' || c == ':'

/-- Match exactly `n` characters satisfying `p`, returning them and the
rest of the input. -/
def takeCount (p : Char → Bool) : ℕ → List Char → Option (List Char × List Char)
  | 0, s => some ([], s)
  | _ + 1, [] => none
  | n + 1, c :: cs =>
    if p c then (takeCount p n cs).map fun t => (c :: t.1, t.2) else none

/-- Match one literal character. -/
def expectChar (ch : Char) : List Char → Option (List Char)
  | [] => none
  | c :: cs => if c = ch then some cs else none

/-- Match `[+\-]`. -/
def takeSign : List Char → Option (Char × List Char)
  | [] => none
  | c :: cs => if c = '+' || c = '-' then some (c, cs) else none

/-- One match of the regex `([\d\-T:]{19}\.\d{6})\d*([+\-]\d{2}):(\d{2})`
of `__main__._to_datetime` at the head of the input, returning the
replacement `\1|\2\3` and the rest of the input.  The greedy `\d*` needs
no backtracking here: the `[+\-]` that follows it can never match a
digit. -/
def matchTs (s : List Char) : Option (List Char × List Char) :=
  (takeCount inTsClass 19 s).bind fun p1 =>
    (expectChar '.' p1.2).bind fun s2 =>
      (takeCount (·.isDigit) 6 s2).bind fun p3 =>
        let sp := p3.2.span (·.isDigit)
        (takeSign sp.2).bind fun p5 =>
          (takeCount (·.isDigit) 2 p5.2).bind fun p6 =>
            (expectChar ':' p6.2).bind fun s7 =>
              (takeCount (·.isDigit) 2 s7).map fun p8 =>
                (p1.1 ++ '.' :: p3.1 ++ '|' :: p5.1 :: (p6.1 ++ p8.1), p8.2)

/-- `re.sub` with the timestamp pattern: scan left to right, replacing
every non-overlapping match.  The recursion is structural on a fuel set to
the input length; a match always consumes at least 19 characters, so with
that fuel the `0, s => s` case is never reached on a nonempty suffix. -/
def subTsFuel : ℕ → List Char → List Char
  | _, [] => []
  | 0, s => s
  | fuel + 1, c :: cs =>
    match matchTs (c :: cs) with
    | some (r, rest) => r ++ subTsFuel fuel rest
    | none => c :: subTsFuel fuel cs

/-- The `re.sub` call of `__main__._to_datetime`. -/
def pySubTs (s : List Char) : List Char := subTsFuel s.length s

/-- Numeric value of a digit-character list, most significant first. -/
def digitsToNat (l : List Char) : ℕ :=
  l.foldl (fun a c => 10 * a + (c.toNat - 48)) 0

/-- Greedy match of at most `maxN` digits (at least one), as the capped
digit patterns `strptime` compiles (`\d{1,2}`, `\d{1,6}`) match when a
non-digit literal follows; returns the value, the digit count and the
rest.  The range restrictions the compiled patterns carry are enforced by
the field checks in `strptimeTs`, which accept the same strings on
zero-padded fields. -/
def parseUpTo (maxN : ℕ) (s : List Char) : Option (ℕ × ℕ × List Char) :=
  let ds := (s.takeWhile (·.isDigit)).take maxN
  if ds.isEmpty then none
  else some (digitsToNat ds, ds.length, s.drop ds.length)

/-- Leap year in the proleptic Gregorian calendar. -/
def isLeap (y : ℤ) : Bool := (Int.emod y 4 == 0 && Int.emod y 100 != 0) || Int.emod y 400 == 0

/-- Length of a month, as `datetime.date` validates the day field. -/
def daysInMonth (y m : ℤ) : ℤ :=
  if m = 2 then (if isLeap y then 29 else 28)
  else if m = 4 ∨ m = 6 ∨ m = 9 ∨ m = 11 then 30
  else 31

/-- A capped digit field preceded by a literal. -/
def parse2After (lit : Char) (s : List Char) : Option (ℕ × List Char) :=
  (expectChar lit s).bind fun s2 => (parseUpTo 2 s2).map fun t => (t.1, t.2.2)

/-- The six parsed fields of `%Y-%m-%dT%H:%M:%S` and the remaining
input. -/
structure YmdHms where
  y : ℕ
  mo : ℕ
  d : ℕ
  h : ℕ
  mi : ℕ
  sec : ℕ
  rest : List Char

/-- Parse the `%Y-%m-%dT%H:%M:%S` head of the format. -/
def parseYmdHms (s : List Char) : Option YmdHms :=
  (takeCount (·.isDigit) 4 s).bind fun py =>
  (parse2After '-' py.2).bind fun mo =>
  (parse2After '-' mo.2).bind fun d =>
  (parse2After 'T' d.2).bind fun h =>
  (parse2After ':' h.2).bind fun mi =>
  (parse2After ':' mi.2).map fun sec =>
  ⟨digitsToNat py.1, mo.1, d.1, h.1, mi.1, sec.1, sec.2⟩

/-- Parse the `%z` directive: sign, two digits, optional colon, two
digits; the offset (in minutes) must stay below 24 hours, the bound the
`timezone` constructor enforces. -/
def parseOffset (s : List Char) : Option (ℤ × List Char) :=
  (takeSign s).bind fun sg =>
  (takeCount (·.isDigit) 2 sg.2).bind fun oh =>
  (takeCount (·.isDigit) 2
      (if oh.2.head? = some ':' then oh.2.tail else oh.2)).bind fun om =>
  let offAbs : ℤ := digitsToNat oh.1 * 60 + digitsToNat om.1
  if offAbs ≤ 1439 then
    some ((if sg.1 = '-' then -1 else 1) * offAbs, om.2)
  else none

/-- Embedding of `datetime.strptime(s, "%Y-%m-%dT%H:%M:%S.%f|%z")`: the
compiled pattern must match the whole string and the fields must form a
valid aware datetime (`%f` is right-padded to six digits; of `%z` the
shapes `±HHMM` and `±HH:MM` are modelled, the only ones arising here). -/
def strptimeTs (s : List Char) : Option PyDateTime :=
  (parseYmdHms s).bind fun ymd =>
  (expectChar '.' ymd.rest).bind fun s11 =>
  (parseUpTo 6 s11).bind fun f =>
  (expectChar '|' f.2.2).bind fun s13 =>
  (parseOffset s13).bind fun off =>
  if off.2 = [] ∧ 1 ≤ ymd.y ∧ 1 ≤ ymd.mo ∧ ymd.mo ≤ 12 ∧ 1 ≤ ymd.d
      ∧ (ymd.d : ℤ) ≤ daysInMonth ymd.y ymd.mo
      ∧ ymd.h ≤ 23 ∧ ymd.mi ≤ 59 ∧ ymd.sec ≤ 59 then
    some ⟨ymd.y, ymd.mo, ymd.d, ymd.h, ymd.mi, ymd.sec,
      f.1 * 10 ^ (6 - f.2.1), off.1⟩
  else none

/-- Embedding of `__main__._to_datetime`: normalise with the regex
substitution, then parse with the fixed format. -/
def _to_datetime (s : List Char) : Option PyDateTime := strptimeTs (pySubTs s)

/-- `_to_datetime` on a `String`. -/
def to_datetime (s : String) : Option PyDateTime := _to_datetime s.data

/-- Zero-padded fixed-width decimal digit characters of `n`. -/
def natDigits : ℕ → ℕ → List Char
  | 0, _ => []
  | w + 1, n => natDigits w (n / 10) ++ [Char.ofNat (48 + n % 10)]

/-- The character of a decimal digit. -/
def digitChar (k : ℕ) : Char := Char.ofNat (48 + k)

/-- The 19 date-and-time characters `YYYY-MM-DDTHH:MM:SS` of a
timestamp. -/
def tsDateChars (y mo d h mi s : ℕ) : List Char :=
  natDigits 4 y ++ '-' :: natDigits 2 mo ++ '-' :: natDigits 2 d ++
  'T' :: natDigits 2 h ++ ':' :: natDigits 2 mi ++ ':' :: natDigits 2 s

/-- A well-formed input timestamp string
`YYYY-MM-DDTHH:MM:SS.<frac>±HH:MM` with the given fields. -/
def mkTs (y mo d h mi s : ℕ) (frac : List ℕ) (sign : Bool) (oh om : ℕ) :
    List Char :=
  tsDateChars y mo d h mi s ++
  '.' :: frac.map digitChar ++
  (if sign then '+' else '-') :: natDigits 2 oh ++ ':' :: natDigits 2 om

/-- Numeric value of a digit list, most significant first. -/
def natsVal (l : List ℕ) : ℕ := l.foldl (fun a k => 10 * a + k) 0

/-- Validity of the fields of an input timestamp: a representable
calendar date and time, digit fractional part, and a `±HH:MM` offset
below 24 hours. -/
def ValidTsFields (y mo d h mi s : ℕ) (frac : List ℕ) (oh om : ℕ) : Prop :=
  1 ≤ y ∧ y ≤ 9999 ∧ 1 ≤ mo ∧ mo ≤ 12 ∧ 1 ≤ d ∧ (d : ℤ) ≤ daysInMonth (y : ℤ) (mo : ℤ)
    ∧ h ≤ 23 ∧ mi ≤ 59 ∧ s ≤ 59 ∧ (∀ k ∈ frac, k < 10) ∧ oh ≤ 23 ∧ om ≤ 59

/-- The mode decoding step of `__main__.read_stats`:
`Mode(stat["mode"] + 1)`. -/
def parseModeTag (tag : ℤ) : Option Mode := Mode.fromValue (tag + 1)

/-- Modelled from the claim's words (C3), not from the code: the median
over the daily session counts of all 183 days of the window
`today - 182 … today`, days with zero sessions contributing a count
of 0. -/
def claimAllDaysMedian (today : ℤ) (stats : List Stat) : Option ℚ :=
  median ((List.range 183).map fun i =>
    (hitmapCount (today - 182) stats (today - 182 + i) : ℚ))

/-! ## Theorems -/

/-- C9: the record parser maps the raw integer mode tag to the enumerated
mode with an offset of one relative to the stored enum ordinal: tag 0 maps
to FAST, tag 1 to SLOW and tag 2 to NORMAL, and in general the tag is the
stored value minus one. -/
theorem mode_mapping_spec :
    parseModeTag 0 = some Mode.FAST ∧
    parseModeTag 1 = some Mode.SLOW ∧
    parseModeTag 2 = some Mode.NORMAL ∧
    ∀ m : Mode, parseModeTag (m.value - 1) = some m := by
  refine ⟨by decide, by decide, by decide, fun m => ?_⟩
  cases m <;> decide

/-- C5 (amended): `_human_duration` renders a span of at most 120 seconds
in the seconds form, a span of more than 120 seconds and at most 2 hours
in the minutes+seconds form, and anything longer in the hours+minutes
form, boundary values falling into the lower bucket; 90 seconds renders as
`"90.0 seconds"` (the code prints the float `total_seconds()`, so the
seconds form carries a decimal point — the only divergence from the
claim), 150 seconds as `"2 minutes 30s"`, 7500 seconds as
`"2 hours 5min"`, and 120 seconds in the seconds form. -/
theorem human_duration_spec :
    (∀ d : ℤ, d ≤ 120000000 → ∃ a, _human_duration d = a ++ " seconds") ∧
    (∀ d : ℤ, 120000000 < d → d ≤ 7200000000 →
      ∃ a b, _human_duration d = a ++ " minutes " ++ b ++ "s") ∧
    (∀ d : ℤ, 7200000000 < d →
      ∃ a b, _human_duration d = a ++ " hours " ++ b ++ "min") ∧
    _human_duration 90000000 = "90.0 seconds" ∧
    _human_duration 150000000 = "2 minutes 30s" ∧
    _human_duration 7500000000 = "2 hours 5min" ∧
    _human_duration 120000000 = "120.0 seconds" := by
  have hsec : ∀ d : ℤ, d ≤ 120000000 → (pyDiv (d : ℚ) 1000000 ≤ 120) := by
    intro d hd
    rw [pyDiv_eq_div, div_le_iff₀ (by norm_num)]
    exact_mod_cast hd
  have hsec' : ∀ d : ℤ, 120000000 < d → ¬ (pyDiv (d : ℚ) 1000000 ≤ 120) := by
    intro d hd
    rw [pyDiv_eq_div, not_le, lt_div_iff₀ (by norm_num)]
    exact_mod_cast hd
  have hmin : ∀ d : ℤ, d ≤ 7200000000 → (pyDiv (d : ℚ) 1000000 ≤ 3600 * 2) := by
    intro d hd
    rw [pyDiv_eq_div, div_le_iff₀ (by norm_num)]
    norm_num
    exact_mod_cast hd
  have hmin' : ∀ d : ℤ, 7200000000 < d → ¬ (pyDiv (d : ℚ) 1000000 ≤ 3600 * 2) := by
    intro d hd
    rw [pyDiv_eq_div, not_le, lt_div_iff₀ (by norm_num)]
    norm_num
    exact_mod_cast hd
  refine ⟨fun d hd => ?_, fun d hd1 hd2 => ?_, fun d hd => ?_,
    ?_, ?_, ?_, ?_⟩
  · exact ⟨_, by simp only [_human_duration]; rw [if_pos (hsec d hd)]⟩
  · exact ⟨_, _, by
      simp only [_human_duration]
      rw [if_neg (hsec' d hd1), if_pos (hmin d hd2)]⟩
  · exact ⟨_, _, by
      simp only [_human_duration]
      rw [if_neg (hsec' d (by linarith)), if_neg (hmin' d hd)]⟩
  all_goals
    norm_num [_human_duration, pyDiv, pyMod, fmtF0, pyRound, pyFloatRepr,
      Rat.divInt_eq_div]
  all_goals decide

/-- Witness for `human_duration_spec` at concrete spans in each bucket. -/
theorem human_duration_spec_witness :
    (∃ a, _human_duration 100000000 = a ++ " seconds") ∧
    (∃ a b, _human_duration 150000000 = a ++ " minutes " ++ b ++ "s") ∧
    (∃ a b, _human_duration 7500000000 = a ++ " hours " ++ b ++ "min") :=
  ⟨human_duration_spec.1 100000000 (by decide),
   human_duration_spec.2.1 150000000 (by decide) (by decide),
   human_duration_spec.2.2.1 7500000000 (by decide)⟩

/-- C5 counterexample: the code renders a 90-second span as
`"90.0 seconds"`, not `"90 seconds"` as the claim states — the seconds
branch prints the `total_seconds()` float. -/
theorem human_duration_ninety_counterexample :
    _human_duration 90000000 = "90.0 seconds" ∧
    "90.0 seconds" ≠ "90 seconds" := by
  constructor
  · norm_num [_human_duration, pyDiv, pyMod, fmtF0, pyRound, pyFloatRepr,
      Rat.divInt_eq_div]
    decide
  · decide

/-- Every list sum below is a left fold starting from zero. -/
theorem foldl_add_eq_sum (l : List ℤ) (a : ℤ) : l.foldl (· + ·) a = a + l.sum := by
  induction l generalizing a with
  | nil => simp
  | cons x xs ih => simp [ih, add_assoc]

/-- C8: `training_time` sums `finished_at - started_at` over all records
with no filtering, and on the empty record sequence it returns a report
containing the zero duration (rendered `"0.0 seconds"`) instead of
failing. -/
theorem training_time_spec :
    (∀ stats : List Stat, trainingDurationUs stats = (stats.map sessionUs).sum) ∧
    trainingDurationUs [] = 0 ∧
    training_time [] =
      ⟨"Overall stats", tabulate [] [["Total training time:", "0.0 seconds"]]⟩ ∧
    ∀ stats : List Stat, training_time stats =
      ⟨"Overall stats",
        tabulate [] [["Total training time:",
          _human_duration (trainingDurationUs stats)]]⟩ := by
  refine ⟨fun stats => ?_, rfl, ?_, fun stats => rfl⟩
  · simpa using foldl_add_eq_sum (stats.map sessionUs) 0
  · norm_num [training_time, trainingDurationUs, _human_duration, pyDiv, pyMod,
      fmtF0, pyRound, pyFloatRepr, Rat.divInt_eq_div]
    decide

/-- A defaulted index into a list hits an element of the list when it is
in range. -/
theorem getD_mem_of_lt (l : List ℚ) (i : ℕ) (h : i < l.length) : l.getD i 0 ∈ l := by
  rw [List.getD_eq_getElem?_getD, List.getElem?_eq_getElem h]
  exact List.getElem_mem h

/-- For `1 ≤ n ≤ len d` and `1 ≤ i ≤ n-1` the clamp of
`quantileInterp` is inactive and the interpolated value is a convex
combination of two elements of `d`, hence between any lower and any upper
bound of `d`. -/
theorem quantileInterp_bounds (d : List ℚ) (n i : ℕ) (h2 : 2 ≤ d.length)
    (hnd : n ≤ d.length) (hi1 : 1 ≤ i) (hi2 : i ≤ n - 1)
    (lo hi : ℚ) (hlo : ∀ x ∈ d, lo ≤ x) (hhi : ∀ x ∈ d, x ≤ hi) :
    lo ≤ quantileInterp d n i ∧ quantileInterp d n i ≤ hi := by
  have hn0 : 0 < n := by omega
  set ld := d.length with hld
  have hj0ge : 1 ≤ i * (ld + 1) / n := by
    rw [Nat.one_le_div_iff hn0]
    calc n ≤ ld := hnd
    _ ≤ ld + 1 := by omega
    _ ≤ i * (ld + 1) := Nat.le_mul_of_pos_left _ hi1
  have hj0le : i * (ld + 1) / n ≤ ld - 1 := by
    have hlt : i * (ld + 1) < ld * n := by
      have h1 : (i + 1) * (ld + 1) ≤ n * (ld + 1) :=
        Nat.mul_le_mul_right _ (by omega)
      rw [Nat.succ_mul, Nat.mul_succ] at h1
      have h3 : n * ld + n ≤ n * ld + ld := by omega
      have h2' : i * (ld + 1) + (ld + 1) ≤ n * ld + ld := le_trans h1 h3
      calc i * (ld + 1) < i * (ld + 1) + 1 := by omega
      _ ≤ n * ld := by omega
      _ = ld * n := Nat.mul_comm n ld
    have := (Nat.div_lt_iff_lt_mul hn0).mpr hlt
    omega
  set j0 := i * (ld + 1) / n with hj0
  have hjeq : (if j0 < 1 then 1 else if j0 > ld - 1 then ld - 1 else j0) = j0 := by
    rw [if_neg (by omega), if_neg (by omega)]
  have hmod := Nat.div_add_mod (i * (ld + 1)) n
  have hdelta : (i : ℚ) * (((ld : ℕ) + 1 : ℕ) : ℚ) - (j0 : ℚ) * (n : ℚ)
      = ((i * (ld + 1)) % n : ℕ) := by
    have h' : (i * (ld + 1) : ℚ) = (n : ℚ) * (j0 : ℚ) + ((i * (ld + 1)) % n : ℕ) := by
      exact_mod_cast congrArg (Nat.cast : ℕ → ℚ) hmod.symm
    push_cast at h' ⊢
    linarith
  have hd0 : (0 : ℚ) ≤ (i : ℚ) * (((ld : ℕ) + 1 : ℕ) : ℚ) - (j0 : ℚ) * (n : ℚ) := by
    rw [hdelta]; positivity
  have hdn : (i : ℚ) * (((ld : ℕ) + 1 : ℕ) : ℚ) - (j0 : ℚ) * (n : ℚ) ≤ (n : ℚ) := by
    rw [hdelta]
    exact_mod_cast le_of_lt (Nat.mod_lt _ hn0)
  have hmema : d.getD (j0 - 1) 0 ∈ d := getD_mem_of_lt d _ (by omega)
  have hmemb : d.getD j0 0 ∈ d := getD_mem_of_lt d _ (by omega)
  have hn0' : (0 : ℚ) < n := by exact_mod_cast hn0
  have hla := hlo _ hmema
  have hlb := hlo _ hmemb
  have hah := hhi _ hmema
  have hbh := hhi _ hmemb
  rw [quantileInterp]
  simp only [← hld, hjeq, pyDiv_eq_div, ← hj0]
  push_cast at hd0 hdn ⊢
  constructor
  · rw [le_div_iff₀ hn0']
    nlinarith [hla, hlb, hd0, hdn]
  · rw [div_le_iff₀ hn0']
    nlinarith [hah, hbh, hd0, hdn]

set_option maxHeartbeats 1000000 in
/-- C1 (amended): for every sequence of at least 2 numbers and every
`n ≥ 1`, the quantile estimator returns exactly `n-1` values interpolated
by the exclusive method over the sorted data
(`j = clamp(i*(len+1)//n, 1, len-1)`, `delta = i*(len+1) - j*n`,
`result_i = (data[j-1]*(n-delta) + data[j]*delta)/n`); whenever moreover
`n ≤ len(data)`, each returned value lies between every lower and every
upper bound of the data (in particular within `[min(data), max(data)]`) —
for `n > len(data)` the clamp can extrapolate beyond the data range; and
for `data = [1,…,8]` with `n = 4` the result is `[2.25, 4.5, 6.75]`. -/
theorem quantiles_38_spec :
    (∀ (data : List ℚ) (n : ℕ), 1 ≤ n → 2 ≤ data.length →
      ∃ res, quantiles_38 data n = some res ∧
        res.length = n - 1 ∧
        (∀ k, k < n - 1 →
          res.getD k 0 = quantileInterp (data.insertionSort (· ≤ ·)) n (1 + k)) ∧
        (n ≤ data.length →
          ∀ q ∈ res, ∀ lo hi, (∀ x ∈ data, lo ≤ x) → (∀ x ∈ data, x ≤ hi) →
            lo ≤ q ∧ q ≤ hi)) ∧
    quantiles_38 [1, 2, 3, 4, 5, 6, 7, 8] 4 = some [9/4, 9/2, 27/4] := by
  constructor
  · intro data n hn h2
    have hlen : (data.insertionSort (· ≤ ·)).length = data.length :=
      List.length_insertionSort _ _
    refine ⟨(List.range' 1 (n - 1)).map
      (quantileInterp (data.insertionSort (· ≤ ·)) n), ?_, ?_, ?_, ?_⟩
    · rw [quantiles_38, if_neg (by omega), if_neg (by rw [hlen]; omega)]
    · simp
    · intro k hk
      rw [List.getD_eq_getElem?_getD,
        List.getElem?_eq_getElem (by simpa using hk)]
      simp [List.getElem_range']
    · intro hnd q hq lo hi hlo hhi
      obtain ⟨i, hi_mem, rfl⟩ := List.mem_map.mp hq
      rw [List.mem_range'] at hi_mem
      obtain ⟨r, hr, rfl⟩ := hi_mem
      have hb1 : 2 ≤ (data.insertionSort (· ≤ ·)).length := by rw [hlen]; exact h2
      have hb2 : n ≤ (data.insertionSort (· ≤ ·)).length := by rw [hlen]; exact hnd
      refine quantileInterp_bounds _ n _ hb1 hb2 (by omega) (by omega)
        lo hi ?_ ?_
      · intro x hx
        exact hlo x ((List.mem_insertionSort _).mp hx)
      · intro x hx
        exact hhi x ((List.mem_insertionSort _).mp hx)
  · norm_num [quantiles_38, quantileInterp, List.insertionSort,
      List.orderedInsert, pyDiv, Rat.divInt_eq_div, List.range']

/-- Witness for `quantiles_38_spec` at a concrete sample of size 3 with
`n = 4`. -/
theorem quantiles_38_spec_witness :
    ∃ res, quantiles_38 [1, 2, 3] 4 = some res :=
  let h := quantiles_38_spec.1 [1, 2, 3] 4 (by norm_num) (by norm_num)
  ⟨h.choose, h.choose_spec.1⟩

/-- C1 counterexample: on `data = [1, 2]` with `n = 4` (two data points,
`n ≥ 1`, so inside the claim's stated domain) the returned values `0.75`
and `2.25` fall outside `[min(data), max(data)] = [1, 2]`. -/
theorem quantiles_38_range_counterexample :
    quantiles_38 [1, 2] 4 = some [3/4, 3/2, 9/4] ∧
    ((1 : ℚ)) ∈ [(1 : ℚ), 2] ∧ (∀ x ∈ [(1 : ℚ), 2], 1 ≤ x) ∧
    ((2 : ℚ)) ∈ [(1 : ℚ), 2] ∧ (∀ x ∈ [(1 : ℚ), 2], x ≤ 2) ∧
    ¬ ((1 : ℚ) ≤ 3/4) ∧ ¬ ((9/4 : ℚ) ≤ 2) := by
  refine ⟨?_, by norm_num, by norm_num, by norm_num, by norm_num,
    by norm_num, by norm_num⟩
  norm_num [quantiles_38, quantileInterp, List.insertionSort,
    List.orderedInsert, pyDiv, Rat.divInt_eq_div, List.range']

instance : IsTotal Stat errDesc := ⟨fun a b => Nat.le_total b.errors a.errors⟩
instance : IsTrans Stat errDesc := ⟨fun _ _ _ h1 h2 => Nat.le_trans h2 h1⟩

theorem worseRecord_eq_first_max (stats : List Stat) (e : Stat)
    (l1 l2 : List Stat) (hsplit : stats = l1 ++ e :: l2)
    (hfirst : ∀ x ∈ l1, x.errors < e.errors)
    (hmax : ∀ x ∈ stats, x.errors ≤ e.errors) :
    worseRecord stats = some e := by
  classical
  set M := stats.insertionSort errDesc with hMdef
  have hperm : List.Perm M stats := List.perm_insertionSort errDesc stats
  have hsorted : M.Sorted errDesc := List.sorted_insertionSort errDesc stats
  set p : Stat → Bool := fun x => decide (e.errors ≤ x.errors) with hp
  have hfl1 : l1.filter p = [] := by
    rw [List.filter_eq_nil_iff]
    intro x hx
    simp [hp]
    exact hfirst x hx
  have hfe : stats.filter p = e :: l2.filter p := by
    rw [hsplit, List.filter_append, hfl1]
    simp [hp]
  have hpall : ∀ x ∈ stats.filter p, p x = true := fun x hx => List.of_mem_filter hx
  have hpair : (stats.filter p).Pairwise errDesc := by
    apply List.pairwise_of_forall_mem_list
    intro a ha b hb
    have hb' : e.errors ≤ b.errors := by
      have := List.of_mem_filter hb
      simpa [hp] using this
    have hbmax : b.errors ≤ e.errors := hmax b (List.mem_of_mem_filter hb)
    have ha' : e.errors ≤ a.errors := by
      have := List.of_mem_filter ha
      simpa [hp] using this
    exact Nat.le_trans hbmax ha'
  have hsub : List.Sublist (stats.filter p) M :=
    List.sublist_insertionSort hpair (List.filter_sublist stats)
  have hpermf : List.Perm (M.filter p) (stats.filter p) := hperm.filter p
  have hsubf : List.Sublist (stats.filter p) (M.filter p) := by
    have h1 := hsub.filter p
    rwa [List.filter_filter, show (fun a => p a && p a) = p from by
      funext a; cases p a <;> rfl] at h1
  have heq : stats.filter p = M.filter p :=
    hsubf.eq_of_length hpermf.length_eq.symm
  have hMne : M ≠ [] := by
    intro hnil
    have : stats = [] := (hnil ▸ hperm).symm.eq_nil
    simp [hsplit] at this
  obtain ⟨h, t, hM⟩ := List.exists_cons_of_ne_nil hMne
  have hemem : e ∈ M := hperm.mem_iff.mpr (by rw [hsplit]; simp)
  have hre : e.errors ≤ h.errors := by
    rw [hM] at hemem
    rcases List.mem_cons.mp hemem with he | he
    · rw [he]
    · rw [hM] at hsorted
      exact List.rel_of_sorted_cons hsorted e he
  have hph : p h = true := by simp [hp]; exact hre
  have hfinal : e :: l2.filter p = h :: t.filter p := by
    rw [← hfe, heq, hM, List.filter_cons, if_pos (by simp [hph])]
  have heh : e = h := by injection hfinal with h1 _
  rw [worseRecord, ← hMdef, hM, heh]
  rfl

/-- C7: `typo_record` selects the single record with the maximum `errors`
value; when several records share that maximum, the first in input order
is selected (Python's `sorted` is stable and `reverse=True` preserves the
original order of equal keys), and the report is built from that
record. -/
theorem typo_record_spec (stats : List Stat) (e : Stat) (l1 l2 : List Stat)
    (hsplit : stats = l1 ++ e :: l2)
    (hfirst : ∀ x ∈ l1, x.errors < e.errors)
    (hmax : ∀ x ∈ stats, x.errors ≤ e.errors) :
    worseRecord stats = some e ∧
    typo_record stats = some ⟨"Biggest failure",
      tabulate []
        [["was typing", e.text],
         ["mode", e.mode.lowerName],
         ["failed", toString e.errors ++ " times"],
         ["happened on", strftimeBmY e.started_at],
         ["struggled for", _human_duration (sessionUs e)]]⟩ := by
  have h1 := worseRecord_eq_first_max stats e l1 l2 hsplit hfirst hmax
  refine ⟨h1, ?_⟩
  rw [typo_record, h1]
  rfl

/-- Two equal-error records for the stable tie-break check. -/
def tieStatA : Stat :=
  ⟨"first", ⟨2021, 1, 1, 8, 0, 0, 0, 60⟩, ⟨2021, 1, 1, 8, 1, 0, 0, 60⟩,
    5, [], Mode.NORMAL, 60, 1, 12, 1⟩

/-- The later of the two equal-error records. -/
def tieStatB : Stat :=
  ⟨"second", ⟨2021, 1, 2, 8, 0, 0, 0, 60⟩, ⟨2021, 1, 2, 8, 1, 0, 0, 60⟩,
    5, [], Mode.NORMAL, 60, 1, 12, 1⟩

/-- Witness for `typo_record_spec`: with two records of errors `[5, 5]`,
the first in input order is selected. -/
theorem typo_record_spec_witness :
    worseRecord [tieStatA, tieStatB] = some tieStatA :=
  (typo_record_spec [tieStatA, tieStatB] tieStatA [] [tieStatB] rfl
    (by simp) (by decide)).1

theorem mem_foldlKeys {α : Type} [DecidableEq α] (l : List α) (acc : List α) (y : α) :
    y ∈ l.foldl (fun ks x => if x ∈ ks then ks else ks ++ [x]) acc ↔
      y ∈ acc ∨ y ∈ l := by
  induction l generalizing acc with
  | nil => simp
  | cons a l ih =>
    simp only [List.foldl_cons]
    by_cases h : a ∈ acc
    · rw [if_pos h, ih]
      constructor
      · rintro (h1 | h1)
        · exact Or.inl h1
        · exact Or.inr (List.mem_cons_of_mem _ h1)
      · rintro (h1 | h1)
        · exact Or.inl h1
        · rcases List.mem_cons.mp h1 with rfl | h2
          · exact Or.inl h
          · exact Or.inr h2
    · rw [if_neg h, ih]
      simp only [List.mem_append, List.mem_singleton, List.mem_cons]
      tauto

theorem nodup_foldlKeys {α : Type} [DecidableEq α] (l : List α) (acc : List α)
    (h : acc.Nodup) :
    (l.foldl (fun ks x => if x ∈ ks then ks else ks ++ [x]) acc).Nodup := by
  induction l generalizing acc with
  | nil => simpa using h
  | cons a l ih =>
    simp only [List.foldl_cons]
    by_cases ha : a ∈ acc
    · rw [if_pos ha]; exact ih acc h
    · rw [if_neg ha]
      refine ih _ ?_
      simp [List.nodup_append, h, ha]

theorem mem_dictKeys {α : Type} [DecidableEq α] (l : List α) (y : α) :
    y ∈ dictKeys l ↔ y ∈ l := by
  rw [dictKeys, mem_foldlKeys]
  simp

theorem nodup_dictKeys {α : Type} [DecidableEq α] (l : List α) :
    (dictKeys l).Nodup :=
  nodup_foldlKeys l [] List.nodup_nil

theorem sum_counts {α : Type} [DecidableEq α] (l ks : List α) (hnd : ks.Nodup)
    (hm : ∀ x, x ∈ ks ↔ x ∈ l) :
    (ks.map fun t => l.count t).sum = l.length := by
  classical
  have hnd' : (↑ks : Multiset α).Nodup := by exact_mod_cast hnd
  have hF : (⟨(↑ks : Multiset α), hnd'⟩ : Finset α) = l.toFinset := by
    ext a
    simpa using (hm a).trans (List.mem_toFinset).symm
  have h1 : (ks.map fun t => l.count t).sum
      = Finset.sum (⟨(↑ks : Multiset α), hnd'⟩ : Finset α) (fun t => l.count t) := by
    simp [Finset.sum]
  rw [h1, hF]
  simp

instance : IsTotal (Typo × ℕ) countDesc := ⟨fun a b => Nat.le_total b.2 a.2⟩
instance : IsTrans (Typo × ℕ) countDesc := ⟨fun _ _ _ h1 h2 => Nat.le_trans h2 h1⟩

theorem counts_sum_eq_total (stats : List Stat) :
    ((typoPairs stats).map (fun p => p.2)).sum = typoTotal stats := by
  rw [typoPairs, typoTotal, List.map_map]
  exact sum_counts _ _ (nodup_dictKeys _) (fun x => mem_dictKeys _ x)

theorem share_sum (L : List (Typo × ℕ)) (T : ℚ) :
    (L.map fun p => pyDiv (p.2 : ℚ) T).sum = (L.map fun p => (p.2 : ℚ)).sum / T := by
  induction L with
  | nil => simp
  | cons a L ih =>
    simp only [List.map_cons, List.sum_cons, pyDiv_eq_div] at ih ⊢
    rw [ih, add_div]

theorem mem_typoPairs (stats : List Stat) (p : Typo × ℕ)
    (hp : p ∈ typoPairs stats) :
    p.2 = (qualifyingTypos stats).count p.1 ∧ 0 < p.2 := by
  rw [typoPairs] at hp
  obtain ⟨t, ht, rfl⟩ := List.mem_map.mp hp
  refine ⟨rfl, ?_⟩
  rw [List.count_pos_iff]
  exact (mem_dictKeys _ t).mp ht

/-- C6: `common_typos` counts occurrences of each distinct `Typo` only
across records with `errors > 0`, ranks them in descending count order,
displays at most the top 6, and reports each displayed typo's share as its
count divided by the total typo count over all qualifying records (not
just the displayed six); consequently, with more than 6 distinct typos the
displayed shares sum to strictly less than 1, and they sum to exactly 1
when every distinct typo is displayed.  (The hypothesis asks for at least
one typo in a qualifying record, without which no share is computed.) -/
theorem common_typos_spec (stats : List Stat) (h : 0 < typoTotal stats) :
    (sortedTypos stats).Pairwise countDesc ∧
    displayedTypos stats = (sortedTypos stats).take 6 ∧
    (∀ p ∈ displayedTypos stats,
      p.2 = (qualifyingTypos stats).count p.1 ∧ 0 < p.2) ∧
    common_typos stats = ⟨"Most common typos",
      tabulate ["Typo", "Mistakes", "% of mistakes"]
        ((displayedTypos stats).map fun p =>
          [p.1.actual ++ " instead of " ++ p.1.expected, toString p.2,
           fmtPct (typoShare stats p.2)])⟩ ∧
    (6 < (typoPairs stats).length →
      ((displayedTypos stats).map fun p => typoShare stats p.2).sum < 1) ∧
    ((typoPairs stats).length ≤ 6 →
      ((displayedTypos stats).map fun p => typoShare stats p.2).sum = 1) := by
  have hperm : List.Perm (sortedTypos stats) (typoPairs stats) :=
    List.perm_insertionSort countDesc (typoPairs stats)
  have hsorted : (sortedTypos stats).Pairwise countDesc :=
    List.sorted_insertionSort countDesc (typoPairs stats)
  have hsum_sorted : ((sortedTypos stats).map (fun p => p.2)).sum = typoTotal stats := by
    rw [← counts_sum_eq_total stats]
    exact List.Perm.sum_eq (hperm.map _)
  have hmem_sorted : ∀ p ∈ sortedTypos stats,
      p.2 = (qualifyingTypos stats).count p.1 ∧ 0 < p.2 := fun p hp =>
    mem_typoPairs stats p (hperm.subset hp)
  have hT0 : (0 : ℚ) < (typoTotal stats : ℚ) := by exact_mod_cast h
  have hshare : ∀ L : List (Typo × ℕ),
      (L.map fun p => typoShare stats p.2).sum
        = (((L.map fun p => p.2).sum : ℕ) : ℚ) / (typoTotal stats : ℚ) := by
    intro L
    have h1 : (L.map fun p => typoShare stats p.2).sum
        = (L.map fun p => ((p.2 : ℕ) : ℚ)).sum / (typoTotal stats : ℚ) := by
      simp only [typoShare]
      exact share_sum L _
    rw [h1]
    congr 1
    rw [Nat.cast_list_sum, List.map_map]
    rfl
  refine ⟨hsorted, rfl, ?_, rfl, ?_, ?_⟩
  · intro p hp
    exact hmem_sorted p (List.mem_of_mem_take hp)
  · intro h6
    rw [displayedTypos, hshare, div_lt_one hT0]
    have hTake := List.take_append_drop 6 (sortedTypos stats)
    have hsum2 : (((sortedTypos stats).take 6).map (fun p => p.2)).sum
        + (((sortedTypos stats).drop 6).map (fun p => p.2)).sum = typoTotal stats := by
      rw [← List.sum_append, ← List.map_append, hTake]
      exact hsum_sorted
    have hdropne : (sortedTypos stats).drop 6 ≠ [] := by
      have : (sortedTypos stats).length = (typoPairs stats).length := hperm.length_eq
      intro hnil
      have := List.length_drop 6 (sortedTypos stats) ▸ congrArg List.length hnil
      simp at this
      omega
    obtain ⟨q, hq⟩ := List.exists_mem_of_ne_nil _ hdropne
    have hq1 : 1 ≤ q.2 :=
      (hmem_sorted q (List.mem_of_mem_drop hq)).2
    have hdge : 1 ≤ (((sortedTypos stats).drop 6).map (fun p => p.2)).sum := by
      calc 1 ≤ q.2 := hq1
      _ ≤ (((sortedTypos stats).drop 6).map (fun p => p.2)).sum :=
        List.single_le_sum (fun x _ => Nat.zero_le x) _ (List.mem_map_of_mem _ hq)
    have : (((sortedTypos stats).take 6).map (fun p => p.2)).sum < typoTotal stats := by
      omega
    exact_mod_cast this
  · intro h6
    have hall : (sortedTypos stats).take 6 = sortedTypos stats :=
      List.take_of_length_le (by rw [hperm.length_eq]; exact h6)
    rw [displayedTypos, hall, hshare, hsum_sorted]
    exact div_self (ne_of_gt hT0)

/-- A qualifying record with one typo for the `common_typos_spec`
witness. -/
def typoWitStat : Stat :=
  ⟨"teh", ⟨2021, 2, 1, 9, 0, 0, 0, 0⟩, ⟨2021, 2, 1, 9, 1, 0, 0, 0⟩,
    1, [⟨"the", "teh"⟩], Mode.NORMAL, 60, 1, 12, 1⟩

/-- Witness for `common_typos_spec` on a single qualifying record with one
typo: the single distinct typo is displayed and its share is 1. -/
theorem common_typos_spec_witness :
    ((displayedTypos [typoWitStat]).map fun p => typoShare [typoWitStat] p.2).sum = 1 :=
  (common_typos_spec [typoWitStat] (by decide)).2.2.2.2.2 (by decide)

/-- C3 (amended): the hitmap glyph threshold is the median of the daily
session counts over the days on which at least one session occurred (the
values of the count dictionary), not over all days of the window; a day's
glyph is heavy when its count is at least that median, light when the
count is positive but below it, and empty when the count is zero. -/
theorem hitmap_threshold_spec (today : ℤ) (stats : List Stat) (med : ℚ)
    (h : hitmapMed today stats = some med) :
    hitmapMed today stats =
      median ((practicedDays (today - 182) stats).map fun d =>
        (hitmapCount (today - 182) stats d : ℚ)) ∧
    hitmap today stats = some ⟨"6 months hitmap",
      String.intercalate "\n" ((List.range 7).map fun weekday =>
        day_abbr.getD weekday "" ++ " " ++
          String.join ((List.range (hitmapWeeks today).toNat).map fun week =>
            if med ≤ ((hitmapCount (today - 182) stats
                ((today - 182 - ordWeekday (today - 182)) + (7 * week + weekday : ℕ)) : ℕ) : ℚ)
            then "▓▓"
            else if 0 < hitmapCount (today - 182) stats
                ((today - 182 - ordWeekday (today - 182)) + (7 * week + weekday : ℕ))
            then "▒▒" else "░░"))⟩ := by
  refine ⟨rfl, ?_⟩
  rw [hitmap, h]
  rfl

/-- One session of the concrete hitmap scenario, started at noon of the
given 2021 date. -/
def hmStat (m d : ℤ) : Stat :=
  ⟨"drill", ⟨2021, m, d, 12, 0, 0, 0, 120⟩, ⟨2021, m, d, 12, 1, 0, 0, 120⟩,
    0, [], Mode.NORMAL, 60, 1, 12, 1⟩

/-- `today` of the concrete hitmap scenario: Monday 2021-06-07. -/
def hmToday : ℤ := toOrdinal 2021 6 7

/-- Three sessions on Sunday 2021-06-06 and one on Monday 2021-06-07. -/
def hmStats : List Stat := [hmStat 6 6, hmStat 6 6, hmStat 6 6, hmStat 6 7]

/-- The count values the code's dictionary holds in the concrete
scenario: 3 sessions on the first practiced day, 1 on the second. -/
theorem hitmapMed_concrete : hitmapMed hmToday hmStats = some 2 := by
  have hlist : (practicedDays (hmToday - 182) hmStats).map
      (fun d => (hitmapCount (hmToday - 182) hmStats d : ℚ)) = [3, 1] := by decide
  rw [hitmapMed, hlist]
  norm_num [median, List.insertionSort, List.orderedInsert, pyDiv, Rat.divInt_eq_div]

/-- Witness for `hitmap_threshold_spec` on the concrete scenario. -/
theorem hitmap_threshold_spec_witness : hitmap hmToday hmStats ≠ none := by
  have h := hitmap_threshold_spec hmToday hmStats 2 hitmapMed_concrete
  rw [h.2]
  simp

set_option maxRecDepth 100000 in
/-- C3 counterexample: with three sessions on 2021-06-06 and one on
`today` = 2021-06-07, the code's threshold (median over practiced days
only) is 2, while the claim's threshold (median over all days of the
window, zero days included) is 0; the day `today`, with count 1, is
rendered light (`"▒▒"`) by the code, whereas the claim's rule (count 1 ≥
median 0) would render it heavy (`"▓▓"`). -/
theorem hitmap_median_counterexample :
    hitmapMed hmToday hmStats = some 2 ∧
    claimAllDaysMedian hmToday hmStats = some 0 ∧
    hitmapCount (hmToday - 182) hmStats hmToday = 1 ∧
    hitmapChar 2 1 = "▒▒" ∧
    hitmapChar 0 1 = "▓▓" := by
  refine ⟨hitmapMed_concrete, ?_, by decide, by decide, by decide⟩
  have hlist : (List.range 183).map (fun i =>
      (hitmapCount (hmToday - 182) hmStats (hmToday - 182 + i) : ℚ))
      = (List.replicate 181 0) ++ [3, 1] := by decide
  rw [claimAllDaysMedian, hlist]
  have hsorted : ((List.replicate 181 (0:ℚ)) ++ [3, 1]).insertionSort (· ≤ ·)
      = (List.replicate 181 0) ++ [1, 3] := by decide
  rw [median]
  simp only [hsorted]
  decide

/-- C10 (amended): for every record sequence in which no session starts on
or after `today - 182` (in particular the empty sequence), `hitmap` fails
with the median-of-an-empty-collection exception instead of returning a
Report, and since the report list of `main` is built before anything is
printed, the whole run aborts with no output. -/
theorem hitmap_empty_window_spec (today : ℤ) (stats : List Stat)
    (h : ∀ s ∈ stats, s.started_at.dateOrd < today - 182) :
    hitmap today stats = none ∧ mainReports today stats = none := by
  have hfilter : (stats.filter fun s =>
      decide (today - 182 ≤ s.started_at.dateOrd)) = [] := by
    rw [List.filter_eq_nil_iff]
    intro s hs
    simpa using not_le.mpr (h s hs)
  have hmed : hitmapMed today stats = none := by
    rw [hitmapMed, practicedDays, hfilter]
    rfl
  refine ⟨?_, ?_⟩
  · rw [hitmap, hmed]
    rfl
  · rw [mainReports, hitmap, hmed]
    rfl

/-- Witness for `hitmap_empty_window_spec`: the empty log. -/
theorem hitmap_empty_window_spec_witness :
    hitmap 0 [] = none ∧ mainReports 0 [] = none :=
  hitmap_empty_window_spec 0 [] (by simp)

/-- `today` of the future-session scenario: 2021-06-01. -/
def futToday : ℤ := toOrdinal 2021 6 1

/-- A session whose start date 2021-06-02 lies after `futToday`. -/
def futStat : Stat := hmStat 6 2

/-- C10 counterexample: a record whose start date falls after `today` is
not within the 182-day window ending `today`, yet the hitmap does not fail
on it — the code only drops sessions started before `today - 182`, so the
count dictionary is nonempty and a Report is returned. -/
theorem hitmap_future_session_counterexample :
    futToday < futStat.started_at.dateOrd ∧
    futToday - 182 ≤ futStat.started_at.dateOrd ∧
    hitmap futToday [futStat] ≠ none := by
  refine ⟨by decide, by decide, ?_⟩
  have hmed : hitmapMed futToday [futStat] = some 1 := by decide
  rw [hitmap, hmed]
  simp

theorem quantiles_38_length (data : List ℚ) (n : ℕ) (res : List ℚ)
    (h : quantiles_38 data n = some res) : res.length = n - 1 := by
  rw [quantiles_38] at h
  split_ifs at h
  replace h := Option.some.inj h
  rw [← h]
  simp

theorem mapM_option_mem {α β : Type} (f : α → Option β) :
    ∀ (l : List α) (l' : List β), l.mapM f = some l' →
      ∀ b ∈ l', ∃ a ∈ l, f a = some b := by
  intro l
  induction l with
  | nil =>
    intro l' h b hb
    rw [List.mapM_nil] at h
    obtain rfl := Option.some.inj h
    simp at hb
  | cons a l ih =>
    intro l' h b hb
    rw [List.mapM_cons] at h
    cases hfa : f a with
    | none => rw [hfa] at h; simp at h
    | some x =>
      cases hml : l.mapM f with
      | none => rw [hfa, hml] at h; simp at h
      | some xs =>
        rw [hfa, hml] at h
        simp at h
        subst h
        rcases List.mem_cons.mp hb with rfl | hb'
        · exact ⟨a, List.mem_cons_self a l, hfa⟩
        · obtain ⟨a', ha', hfa'⟩ := ih xs hml b hb'
          exact ⟨a', List.mem_cons_of_mem _ ha', hfa'⟩

theorem plotEntry_inv (k : ℤ × ℤ) (cps : List ℚ) (e : PlotEntry)
    (h : plotEntry k cps = some e) :
    e.year = k.1 ∧ e.month = k.2 ∧ e.count = cps.length ∧
    ∃ lo q1 q2 q3 hi, e.points = [lo, q1, q2, q3, hi] ∧
      cps.min? = some lo ∧ quantiles_38 cps 4 = some [q1, q2, q3] ∧
      cps.max? = some hi := by
  rw [plotEntry] at h
  cases hmin : cps.min? with
  | none => rw [hmin] at h; simp at h
  | some lo =>
    cases hq : quantiles_38 cps 4 with
    | none => rw [hmin, hq] at h; simp at h
    | some qs =>
      cases hmax : cps.max? with
      | none => rw [hmin, hq, hmax] at h; simp at h
      | some hi =>
        rw [hmin, hq, hmax] at h
        simp only [Option.some.injEq] at h
        subst h
        have hlen : qs.length = 3 := quantiles_38_length cps 4 qs hq
        obtain ⟨q1, q2, q3, rfl⟩ := List.length_eq_three.mp hlen
        exact ⟨rfl, rfl, rfl, lo, q1, q2, q3, hi, rfl, rfl, rfl, rfl⟩

/-- C4 (amended): in the speed-progress report each month-group's five
summary values `[min, q1, median, q3, max]` (computed by `min`,
`quantiles_38` with `n = 4`, and `max` over the group's cps values) are
mapped to columns of the fixed 30-column scale anchored at 0 by
`position = int(30 * value / global_max)` — truncation toward zero, not
rounding — where `global_max` is the maximum of all groups' max
values. -/
theorem cps_progress_scale_spec (stats : List Stat) (entries : List PlotEntry)
    (gmax : ℚ) (h1 : plotInput stats = some entries)
    (h2 : globalMax entries = some gmax) (h3 : ¬ gmax = 0) :
    cpsPositions stats =
      some (entries.map fun e => e.points.map fun v => pyInt (pyDiv (30 * v) |gmax|)) ∧
    (∀ e ∈ entries, ∃ k cps, (k, cps) ∈ cpsGroups stats ∧ e.year = k.1 ∧ e.month = k.2 ∧
      (∃ lo q1 q2 q3 hi, e.points = [lo, q1, q2, q3, hi] ∧
        cps.min? = some lo ∧ quantiles_38 cps 4 = some [q1, q2, q3] ∧
        cps.max? = some hi)) ∧
    (∀ e ∈ entries, e.points.getLastD 0 ≤ gmax) ∧
    (∃ e ∈ entries, e.points.getLastD 0 = gmax) ∧
    cps_progress stats = some ⟨"Characters per second (slow mode)",
      tabulate ["Month", "Median cps", "Plot", "Sessions..."]
        (entries.map (cpsRow gmax))⟩ := by
  haveI : Std.Antisymm ((· : ℚ) ≤ ·) := ⟨fun h h2 => le_antisymm h h2⟩
  have hmax := (List.max?_eq_some_iff
    le_refl max_choice (fun _ _ _ => max_le_iff)).mp h2
  refine ⟨?_, ?_, ?_, ?_, ?_⟩
  · simp only [cpsPositions, h1, Option.some_bind, h2, if_neg h3]
    rfl
  · intro e he
    rw [plotInput] at h1
    obtain ⟨p, hp, hpe⟩ := mapM_option_mem _ _ _ h1 e he
    obtain ⟨hy, hm, hc, lo, q1, q2, q3, hi, hpts, hmin, hq, hmx⟩ :=
      plotEntry_inv p.1 p.2 e hpe
    exact ⟨p.1, p.2, by simpa using hp, hy, hm, lo, q1, q2, q3, hi,
      hpts, hmin, hq, hmx⟩
  · intro e he
    exact hmax.2 _ (List.mem_map_of_mem _ he)
  · obtain ⟨e, he, heq⟩ := List.mem_map.mp hmax.1
    exact ⟨e, he, heq⟩
  · simp only [cps_progress, h1, Option.some_bind, h2, if_neg h3]

/-- A slow-mode record of the concrete speed-progress scenario. -/
def cpsStat (mo d : ℤ) (c : ℚ) : Stat :=
  ⟨"speed", ⟨2021, mo, d, 10, 0, 0, 0, 0⟩, ⟨2021, mo, d, 10, 1, 0, 0, 0⟩,
    0, [], Mode.SLOW, 60, c, 12, 1⟩

/-- Two Jan-2021 sessions at 1 cps and two Feb-2021 sessions at 4 cps. -/
def cpsStats : List Stat :=
  [cpsStat 1 5 1, cpsStat 1 6 1, cpsStat 2 5 4, cpsStat 2 6 4]

/-- The January plot entry of the scenario: all five points are 1. -/
def cpsE1 : PlotEntry := ⟨2021, 1, [1, 1, 1, 1, 1], 2⟩

/-- The February plot entry of the scenario: all five points are 4. -/
def cpsE2 : PlotEntry := ⟨2021, 2, [4, 4, 4, 4, 4], 2⟩

/-- The cps dictionary of the concrete scenario. -/
theorem cps_groups_concrete :
    cpsGroups cpsStats = [((2021, 1), [1, 1]), ((2021, 2), [4, 4])] := by decide

/-- `plot_input` of the concrete scenario. -/
theorem cps_plotInput_concrete : plotInput cpsStats = some [cpsE1, cpsE2] := by
  have he1 : plotEntry (2021, 1) [1, 1] = some cpsE1 := by
    norm_num [plotEntry, quantiles_38, quantileInterp, List.insertionSort,
      List.orderedInsert, pyDiv, Rat.divInt_eq_div, List.range', List.min?,
      List.max?, min_def, max_def, cpsE1]
  have he2 : plotEntry (2021, 2) [4, 4] = some cpsE2 := by
    norm_num [plotEntry, quantiles_38, quantileInterp, List.insertionSort,
      List.orderedInsert, pyDiv, Rat.divInt_eq_div, List.range', List.min?,
      List.max?, min_def, max_def, cpsE2]
  rw [plotInput, cps_groups_concrete]
  simp only [List.mapM_cons, List.mapM_nil, he1, he2]
  rfl

/-- `global_max` of the concrete scenario is February's 4. -/
theorem cps_globalMax_concrete : globalMax [cpsE1, cpsE2] = some 4 := by
  norm_num [globalMax, cpsE1, cpsE2, List.max?, max_def]

/-- Witness for `cps_progress_scale_spec` on the concrete scenario. -/
theorem cps_progress_scale_spec_witness :
    cpsPositions cpsStats =
      some ([cpsE1, cpsE2].map fun e => e.points.map fun v =>
        pyInt (pyDiv (30 * v) |(4 : ℚ)|)) :=
  (cps_progress_scale_spec cpsStats [cpsE1, cpsE2] 4 cps_plotInput_concrete
    cps_globalMax_concrete (by norm_num)).1

/-- C4 counterexample: with January cps values `[1, 1]` and February cps
values `[4, 4]`, `global_max = 4` and January's five points are all 1, so
`30 * 1 / 4 = 7.5`; the code places them at column `int(7.5) = 7`, while
the claim's `round(7.5)` is 8. -/
theorem cps_progress_round_counterexample :
    cpsPositions cpsStats = some [[7, 7, 7, 7, 7], [30, 30, 30, 30, 30]] ∧
    round ((30 * (1 : ℚ)) / 4) = 8 ∧ ((7 : ℤ) ≠ 8) := by
  refine ⟨?_, ?_, by decide⟩
  · rw [cpsPositions, cps_plotInput_concrete]
    simp only [Option.some_bind, cps_globalMax_concrete]
    norm_num [cpsE1, cpsE2, screenPos, pyInt, pyDiv, Rat.divInt_eq_div]
  · rw [round_eq]
    norm_num

theorem digitChar_isDigit (k : ℕ) (h : k < 10) : (digitChar k).isDigit = true := by
  interval_cases k <;> decide

theorem digitChar_toNat (k : ℕ) (h : k < 10) : (digitChar k).toNat = 48 + k := by
  interval_cases k <;> decide

theorem digitChar_ne_colon (k : ℕ) (h : k < 10) : ¬ digitChar k = ':' := by
  interval_cases k <;> decide

theorem isDigit_inTsClass (c : Char) (h : c.isDigit = true) : inTsClass c = true := by
  simp [inTsClass, h]

theorem takeCount_prefix (p : Char → Bool) (n : ℕ) (l r : List Char)
    (hn : l.length = n) (hall : ∀ c ∈ l, p c = true) :
    takeCount p n (l ++ r) = some (l, r) := by
  induction l generalizing n with
  | nil => subst hn; rfl
  | cons c cs ih =>
    subst hn
    simp only [List.length_cons, List.cons_append, takeCount,
      hall c (List.mem_cons_self c cs), if_pos, List.append_eq]
    rw [ih cs.length rfl (fun x hx => hall x (List.mem_cons_of_mem _ hx))]
    rfl

theorem natDigits_length (w n : ℕ) : (natDigits w n).length = w := by
  induction w generalizing n with
  | zero => rfl
  | succ w ih => simp [natDigits, ih]

theorem natDigits_isDigit (w n : ℕ) : ∀ c ∈ natDigits w n, c.isDigit = true := by
  induction w generalizing n with
  | zero => simp [natDigits]
  | succ w ih =>
    intro c hc
    rw [natDigits] at hc
    rcases List.mem_append.mp hc with h | h
    · exact ih _ c h
    · rw [List.mem_singleton.mp h]
      exact digitChar_isDigit _ (Nat.mod_lt _ (by omega))

theorem digitsToNat_natDigits (w n : ℕ) (h : n < 10 ^ w) :
    digitsToNat (natDigits w n) = n := by
  induction w generalizing n with
  | zero => interval_cases n; rfl
  | succ w ih =>
    rw [natDigits, digitsToNat, List.foldl_append]
    have h10 : n % 10 < 10 := Nat.mod_lt _ (by omega)
    have hdiv : n / 10 < 10 ^ w := by
      rw [Nat.div_lt_iff_lt_mul (by omega)]
      calc n < 10 ^ (w + 1) := h
      _ = 10 ^ w * 10 := by ring
    have := ih (n / 10) hdiv
    rw [digitsToNat] at this
    simp only [List.foldl_cons, List.foldl_nil, this, digitChar]
    rw [show (Char.ofNat (48 + n % 10)).toNat = 48 + n % 10 from
      digitChar_toNat _ h10]
    omega

theorem takeWhile_digits_append (l r : List Char) (c : Char)
    (hl : ∀ x ∈ l, x.isDigit = true) (hc : c.isDigit = false) :
    (l ++ c :: r).takeWhile (·.isDigit) = l := by
  induction l with
  | nil => simp [List.takeWhile_cons, hc]
  | cons a l ih =>
    simp only [List.cons_append, List.takeWhile_cons,
      hl a (List.mem_cons_self a l), if_pos]
    rw [ih (fun x hx => hl x (List.mem_cons_of_mem _ hx))]

theorem dropWhile_digits_append (l r : List Char) (c : Char)
    (hl : ∀ x ∈ l, x.isDigit = true) (hc : c.isDigit = false) :
    (l ++ c :: r).dropWhile (·.isDigit) = c :: r := by
  induction l with
  | nil => simp [List.dropWhile_cons, hc]
  | cons a l ih =>
    simp only [List.cons_append, List.dropWhile_cons,
      hl a (List.mem_cons_self a l), if_pos]
    exact ih (fun x hx => hl x (List.mem_cons_of_mem _ hx))

theorem span_digits_append (l r : List Char) (c : Char)
    (hl : ∀ x ∈ l, x.isDigit = true) (hc : c.isDigit = false) :
    (l ++ c :: r).span (·.isDigit) = (l, c :: r) := by
  rw [List.span_eq_take_drop, takeWhile_digits_append l r c hl hc,
    dropWhile_digits_append l r c hl hc]

theorem parseUpTo_prefix (maxN : ℕ) (dl : List Char) (c : Char) (r : List Char)
    (hd : ∀ x ∈ dl, x.isDigit = true) (hlen : dl.length ≤ maxN)
    (hne : dl ≠ []) (hc : c.isDigit = false) :
    parseUpTo maxN (dl ++ c :: r) = some (digitsToNat dl, dl.length, c :: r) := by
  rw [parseUpTo, takeWhile_digits_append dl r c hd hc, List.take_of_length_le hlen]
  rw [if_neg (by simpa using hne)]
  rw [List.drop_left]

theorem expectChar_cons (c : Char) (r : List Char) :
    expectChar c (c :: r) = some r := by
  simp [expectChar]

theorem tsDateChars_length (y mo d h mi s : ℕ) :
    (tsDateChars y mo d h mi s).length = 19 := by
  simp [tsDateChars, natDigits_length]

theorem tsDateChars_class (y mo d h mi s : ℕ) :
    ∀ c ∈ tsDateChars y mo d h mi s, inTsClass c = true := by
  rw [tsDateChars]
  simp only [List.forall_mem_append, List.forall_mem_cons]
  refine ⟨⟨⟨⟨⟨?_, ?_, ?_⟩, ?_, ?_⟩, ?_, ?_⟩, ?_, ?_⟩, ?_, ?_⟩ <;>
    first
      | decide
      | exact fun c h => isDigit_inTsClass c (natDigits_isDigit _ _ c h)

theorem takeSign_ifSign (sign : Bool) (r : List Char) :
    takeSign ((if sign then '+' else '-') :: r) =
      some ((if sign then '+' else '-'), r) := by
  cases sign <;> simp [takeSign]

theorem subTsFuel_empty (f : ℕ) : subTsFuel f [] = [] := by
  cases f <;> rfl

theorem mkTs_ne_nil (y mo d h mi s : ℕ) (frac : List ℕ) (sign : Bool)
    (oh om : ℕ) : mkTs y mo d h mi s frac sign oh om ≠ [] := by
  intro h
  have hl := congrArg List.length h
  rw [mkTs] at hl
  simp [tsDateChars_length] at hl

theorem pySubTs_single (s r : List Char) (hm : matchTs s = some (r, []))
    (hne : s ≠ []) : pySubTs s = r := by
  obtain ⟨c, cs, rfl⟩ := List.exists_cons_of_ne_nil hne
  rw [pySubTs, List.length_cons, subTsFuel, hm]
  simp [subTsFuel_empty]

theorem matchTs_mkTs (y mo d h mi s : ℕ) (frac : List ℕ) (sign : Bool)
    (oh om : ℕ) (hfrac : ∀ k ∈ frac, k < 10) (h6 : 6 ≤ frac.length) :
    matchTs (mkTs y mo d h mi s frac sign oh om) =
      some (tsDateChars y mo d h mi s ++ '.' :: ((frac.take 6).map digitChar ++
        '|' :: (if sign then '+' else '-') :: (natDigits 2 oh ++ natDigits 2 om)),
        []) := by
  have hsgn : ((if sign then '+' else '-') : Char).isDigit = false := by
    cases sign <;> decide
  have htake6 : ((frac.take 6).map digitChar).length = 6 := by
    simp only [List.length_map, List.length_take]
    omega
  have htake6d : ∀ c ∈ (frac.take 6).map digitChar, c.isDigit = true := by
    intro c hc
    obtain ⟨k, hk, rfl⟩ := List.mem_map.mp hc
    exact digitChar_isDigit k (hfrac k (List.take_subset 6 frac hk))
  have hdropd : ∀ c ∈ (frac.drop 6).map digitChar, c.isDigit = true := by
    intro c hc
    obtain ⟨k, hk, rfl⟩ := List.mem_map.mp hc
    exact digitChar_isDigit k (hfrac k (List.drop_subset 6 frac hk))
  have hohd : ∀ c ∈ natDigits 2 oh, c.isDigit = true := natDigits_isDigit 2 oh
  have homd : ∀ c ∈ natDigits 2 om, c.isDigit = true := natDigits_isDigit 2 om
  have hsplit : mkTs y mo d h mi s frac sign oh om =
      tsDateChars y mo d h mi s ++ '.' :: ((frac.take 6).map digitChar ++
        ((frac.drop 6).map digitChar ++ (if sign then '+' else '-') ::
          (natDigits 2 oh ++ ':' :: natDigits 2 om))) := by
    rw [mkTs]
    rw [show (frac.map digitChar) =
        (frac.take 6).map digitChar ++ (frac.drop 6).map digitChar from by
      rw [← List.map_append, List.take_append_drop]]
    simp [List.append_assoc]
    rw [← List.append_assoc, List.take_append_drop]
  rw [hsplit, matchTs,
    takeCount_prefix inTsClass 19 _ _ (tsDateChars_length y mo d h mi s)
      (tsDateChars_class y mo d h mi s),
    Option.some_bind, expectChar_cons, Option.some_bind,
    takeCount_prefix (fun c => c.isDigit) 6 _ _ htake6 htake6d,
    Option.some_bind]
  rw [span_digits_append _ _ _ hdropd hsgn]
  simp only []
  rw [takeSign_ifSign, Option.some_bind,
    takeCount_prefix (fun c => c.isDigit) 2 _ _ (natDigits_length 2 oh) hohd,
    Option.some_bind, expectChar_cons, Option.some_bind,
    ← List.append_nil (natDigits 2 om),
    takeCount_prefix (fun c => c.isDigit) 2 _ _ (natDigits_length 2 om) homd]
  simp

theorem foldl_digits_map (l : List ℕ) (h : ∀ k ∈ l, k < 10) :
    ∀ acc : ℕ, (l.map digitChar).foldl (fun a c => 10 * a + (c.toNat - 48)) acc
      = l.foldl (fun a k => 10 * a + k) acc := by
  induction l with
  | nil => intro acc; rfl
  | cons k l ih =>
    intro acc
    simp only [List.map_cons, List.foldl_cons]
    rw [digitChar_toNat k (h k (List.mem_cons_self k l))]
    rw [show 48 + k - 48 = k from by omega]
    exact ih (fun x hx => h x (List.mem_cons_of_mem _ hx)) _

theorem digitsToNat_map_digitChar (l : List ℕ) (h : ∀ k ∈ l, k < 10) :
    digitsToNat (l.map digitChar) = natsVal l :=
  foldl_digits_map l h 0

theorem natDigits_ne_nil (v : ℕ) : natDigits 2 v ≠ [] := by
  intro hnil
  have := congrArg List.length hnil
  simp [natDigits_length] at this

theorem parse2After_spec (lit : Char) (v : ℕ) (c : Char) (r : List Char)
    (hv : v < 100) (hc : c.isDigit = false) :
    parse2After lit (lit :: (natDigits 2 v ++ c :: r)) = some (v, c :: r) := by
  rw [parse2After, expectChar_cons, Option.some_bind,
    parseUpTo_prefix 2 (natDigits 2 v) c r (natDigits_isDigit 2 v)
      (by rw [natDigits_length]) (natDigits_ne_nil v) hc]
  simp [digitsToNat_natDigits 2 v (by omega)]

theorem parseYmdHms_spec (y mo d h mi s : ℕ) (c : Char) (r : List Char)
    (hy : y < 10000) (hmo : mo < 100) (hd : d < 100) (hh : h < 100)
    (hmi : mi < 100) (hs : s < 100) (hc : c.isDigit = false) :
    parseYmdHms (natDigits 4 y ++ '-' :: (natDigits 2 mo ++ '-' ::
      (natDigits 2 d ++ 'T' :: (natDigits 2 h ++ ':' :: (natDigits 2 mi ++
        ':' :: (natDigits 2 s ++ c :: r))))))
      = some ⟨y, mo, d, h, mi, s, c :: r⟩ := by
  rw [parseYmdHms,
    takeCount_prefix _ 4 _ _ (natDigits_length 4 y) (natDigits_isDigit 4 y),
    Option.some_bind,
    parse2After_spec '-' mo _ _ hmo (by decide), Option.some_bind,
    parse2After_spec '-' d _ _ hd (by decide), Option.some_bind,
    parse2After_spec 'T' h _ _ hh (by decide), Option.some_bind,
    parse2After_spec ':' mi _ _ hmi (by decide), Option.some_bind,
    parse2After_spec ':' s _ _ hs hc]
  simp [digitsToNat_natDigits 4 y hy]

theorem parseOffset_spec (sign : Bool) (oh om : ℕ) (hoh : oh ≤ 23)
    (hom : om ≤ 59) :
    parseOffset ((if sign then '+' else '-') :: (natDigits 2 oh ++ natDigits 2 om)) =
      some ((if sign then 1 else -1) * ((oh : ℤ) * 60 + om), []) := by
  rw [parseOffset, takeSign_ifSign, Option.some_bind,
    takeCount_prefix _ 2 _ _ (natDigits_length 2 oh) (natDigits_isDigit 2 oh),
    Option.some_bind]
  have hhead : (natDigits 2 om).head? ≠ some ':' := by
    have h2 : natDigits 2 om = [digitChar (om / 10 % 10), digitChar (om % 10)] := rfl
    rw [h2]
    simp only [List.head?_cons, ne_eq, Option.some.injEq]
    exact digitChar_ne_colon _ (Nat.mod_lt _ (by omega))
  rw [if_neg hhead,
    ← List.append_nil (natDigits 2 om),
    takeCount_prefix _ 2 _ _ (natDigits_length 2 om) (natDigits_isDigit 2 om)]
  simp only [Option.some_bind, digitsToNat_natDigits 2 oh (by omega),
    digitsToNat_natDigits 2 om (by omega)]
  rw [if_pos (by omega)]
  cases sign <;> simp

theorem daysInMonth_le_31 (y m : ℤ) : daysInMonth y m ≤ 31 := by
  rw [daysInMonth]
  split_ifs <;> simp

theorem strptimeTs_replacement (y mo d h mi s : ℕ) (frac : List ℕ)
    (sign : Bool) (oh om : ℕ)
    (hv : ValidTsFields y mo d h mi s frac oh om) (h6 : 6 ≤ frac.length) :
    strptimeTs (tsDateChars y mo d h mi s ++ '.' :: ((frac.take 6).map digitChar ++
      '|' :: (if sign then '+' else '-') :: (natDigits 2 oh ++ natDigits 2 om)))
      = some ⟨y, mo, d, h, mi, s, natsVal (frac.take 6),
          (if sign then 1 else -1) * ((oh : ℤ) * 60 + om)⟩ := by
  obtain ⟨hy1, hy2, hmo1, hmo2, hd1, hd2, hh, hmi, hs, hfr, hoh, hom⟩ := hv
  have hd31 : d < 100 := by
    have h31 := daysInMonth_le_31 (y : ℤ) (mo : ℤ)
    have hle : (d : ℤ) ≤ 31 := le_trans hd2 h31
    have hlt : (d : ℤ) < 100 := lt_of_le_of_lt hle (by norm_num)
    exact_mod_cast hlt
  have htake6 : ((frac.take 6).map digitChar).length = 6 := by
    simp only [List.length_map, List.length_take]
    omega
  have htake6d : ∀ c ∈ (frac.take 6).map digitChar, c.isDigit = true := by
    intro c hc
    obtain ⟨k, hk, rfl⟩ := List.mem_map.mp hc
    exact digitChar_isDigit k (hfr k (List.take_subset 6 frac hk))
  have htake6ne : (frac.take 6).map digitChar ≠ [] := by
    intro hnil
    have := congrArg List.length hnil
    rw [htake6] at this
    simp at this
  have hflat : tsDateChars y mo d h mi s ++ '.' :: ((frac.take 6).map digitChar ++
      '|' :: (if sign then '+' else '-') :: (natDigits 2 oh ++ natDigits 2 om))
      = natDigits 4 y ++ '-' :: (natDigits 2 mo ++ '-' :: (natDigits 2 d ++
        'T' :: (natDigits 2 h ++ ':' :: (natDigits 2 mi ++ ':' :: (natDigits 2 s ++
          '.' :: ((frac.take 6).map digitChar ++ '|' ::
            (if sign then '+' else '-') :: (natDigits 2 oh ++ natDigits 2 om))))))) := by
    rw [tsDateChars]
    simp [List.append_assoc]
  rw [hflat, strptimeTs,
    parseYmdHms_spec y mo d h mi s '.' _ (by omega) (by omega) hd31 (by omega)
      (by omega) (by omega) (by decide),
    Option.some_bind, expectChar_cons, Option.some_bind,
    parseUpTo_prefix 6 _ '|' _ htake6d (by rw [htake6]) htake6ne (by decide),
    Option.some_bind, expectChar_cons, Option.some_bind,
    parseOffset_spec sign oh om hoh hom, Option.some_bind]
  dsimp only
  rw [if_pos]
  · rw [digitsToNat_map_digitChar _ (fun k hk => hfr k (List.take_subset 6 frac hk)),
      htake6]
    simp
  · refine ⟨rfl, by omega, by omega, by omega, by omega, ?_, by omega, by omega, by omega⟩
    exact hd2

/-- C2 (amended): for every valid input timestamp string with between 6
and 9 fractional-second digits and a colon-separated `+HH:MM` or `-HH:MM`
offset, the timestamp parser succeeds and returns the correct instant,
with the fractional field truncated to exactly 6 digits by the
normalising substitution before parsing. -/
theorem to_datetime_spec (y mo d h mi s : ℕ) (frac : List ℕ) (sign : Bool)
    (oh om : ℕ) (hv : ValidTsFields y mo d h mi s frac oh om)
    (h6 : 6 ≤ frac.length) (_h9 : frac.length ≤ 9) :
    _to_datetime (mkTs y mo d h mi s frac sign oh om) =
      some ⟨y, mo, d, h, mi, s, natsVal (frac.take 6),
        (if sign then 1 else -1) * ((oh : ℤ) * 60 + om)⟩ := by
  rw [_to_datetime,
    pySubTs_single _ _
      (matchTs_mkTs y mo d h mi s frac sign oh om hv.2.2.2.2.2.2.2.2.2.1 h6)
      (mkTs_ne_nil y mo d h mi s frac sign oh om)]
  exact strptimeTs_replacement y mo d h mi s frac sign oh om hv h6

/-- Witness for `to_datetime_spec`: the claim's own example
`2021-03-01T10:00:00.1234567+02:00` parses with the fraction truncated to
six digits (`123456` microseconds) and offset `+02:00` (120 minutes). -/
theorem to_datetime_spec_witness :
    _to_datetime (mkTs 2021 3 1 10 0 0 [1, 2, 3, 4, 5, 6, 7] true 2 0) =
      some ⟨2021, 3, 1, 10, 0, 0, 123456, 120⟩ := by
  have h := to_datetime_spec 2021 3 1 10 0 0 [1, 2, 3, 4, 5, 6, 7] true 2 0
    (by unfold ValidTsFields; decide) (by decide) (by decide)
  simpa [natsVal] using h

/-- C2 counterexample: `"2021-03-01T10:00:00.1+02:00"` is a valid input
timestamp string with one fractional digit, yet `_to_datetime` fails on
it: the regex `([\d\-T:]{19}\.\d{6})\d*(...)` requires at least six
fractional digits, so the string is left unchanged and `strptime` then
chokes on the `+` where the format expects `|`. -/
theorem to_datetime_short_fraction_counterexample :
    ("2021-03-01T10:00:00.1+02:00").data = mkTs 2021 3 1 10 0 0 [1] true 2 0 ∧
    ValidTsFields 2021 3 1 10 0 0 [1] 2 0 ∧
    (1 ≤ ([1] : List ℕ).length ∧ ([1] : List ℕ).length ≤ 9) ∧
    to_datetime "2021-03-01T10:00:00.1+02:00" = none := by
  refine ⟨by decide, by unfold ValidTsFields; decide, by decide, by decide⟩

end Gotypist
